import Mathlib

/-!
Verification of the homogeneous-coordinate transformation algebra of
`compas.geometry._transformations` (`transformation.py`, `scale.py`).

The development shallowly embeds the code:

* the 4×4 matrix kernel and the decomposition engine are consumed by the
  two source files but their own code is not part of the excerpt; they are
  modelled from the spec (each such definition's doc comment starts with
  `Modelled from the spec:`);
* `Transformation` / `Scale` methods present in the source are translated
  directly;
* Python's reference semantics (shared mutable lists) are modelled by an
  explicit store where the two claims about aliasing need it.

Machine floats are idealised as elements of a field (`ℝ` where the
decomposition engine's `sqrt`/`atan2`/`asin` are involved).
-/

set_option maxHeartbeats 3200000
set_option linter.unusedSectionVars false
set_option linter.unusedVariables false

namespace Compas

/-- Python-level errors raised by the transformation code: `ValueError` raised
by `matrix_inverse`/`decompose_matrix` on singular input (the spec's
`SingularMatrixError`), `ValueError` raised by a constrained family's
round-trip validation (the spec's `InvalidTransformError`), and `IndexError`
from an out-of-range list access. -/
inductive PyErr where
  | singularMatrix : PyErr
  | invalidTransform : PyErr
  | indexError : PyErr
deriving DecidableEq

/-- A 4×4 matrix in row-major order: entry `mij` is row `i`, column `j`;
the translation components sit at `m03`, `m13`, `m23`. -/
structure Mat4 (α : Type) where
  (m00 m01 m02 m03 : α)
  (m10 m11 m12 m13 : α)
  (m20 m21 m22 m23 : α)
  (m30 m31 m32 m33 : α)
deriving DecidableEq

/-- A 3-component vector. -/
structure Vec3 (α : Type) where
  (x y z : α)
deriving DecidableEq

/-- A 4-component vector (used for the perspective part). -/
structure Vec4 (α : Type) where
  (a b c d : α)
deriving DecidableEq

variable {α : Type} [Field α] [DecidableEq α]

/-- Modelled from the spec: the 4×4 identity matrix (`identity_matrix(4)`). -/
def identity_matrix : Mat4 α :=
  ⟨1, 0, 0, 0,
   0, 1, 0, 0,
   0, 0, 1, 0,
   0, 0, 0, 1⟩

/-- Modelled from the spec: the standard matrix product `multiply_matrices(A, B)`
at the fixed 4×4 size used throughout the excerpt. -/
def multiply_matrices (A B : Mat4 α) : Mat4 α :=
  ⟨A.m00 * B.m00 + A.m01 * B.m10 + A.m02 * B.m20 + A.m03 * B.m30,
   A.m00 * B.m01 + A.m01 * B.m11 + A.m02 * B.m21 + A.m03 * B.m31,
   A.m00 * B.m02 + A.m01 * B.m12 + A.m02 * B.m22 + A.m03 * B.m32,
   A.m00 * B.m03 + A.m01 * B.m13 + A.m02 * B.m23 + A.m03 * B.m33,
   A.m10 * B.m00 + A.m11 * B.m10 + A.m12 * B.m20 + A.m13 * B.m30,
   A.m10 * B.m01 + A.m11 * B.m11 + A.m12 * B.m21 + A.m13 * B.m31,
   A.m10 * B.m02 + A.m11 * B.m12 + A.m12 * B.m22 + A.m13 * B.m32,
   A.m10 * B.m03 + A.m11 * B.m13 + A.m12 * B.m23 + A.m13 * B.m33,
   A.m20 * B.m00 + A.m21 * B.m10 + A.m22 * B.m20 + A.m23 * B.m30,
   A.m20 * B.m01 + A.m21 * B.m11 + A.m22 * B.m21 + A.m23 * B.m31,
   A.m20 * B.m02 + A.m21 * B.m12 + A.m22 * B.m22 + A.m23 * B.m32,
   A.m20 * B.m03 + A.m21 * B.m13 + A.m22 * B.m23 + A.m23 * B.m33,
   A.m30 * B.m00 + A.m31 * B.m10 + A.m32 * B.m20 + A.m33 * B.m30,
   A.m30 * B.m01 + A.m31 * B.m11 + A.m32 * B.m21 + A.m33 * B.m31,
   A.m30 * B.m02 + A.m31 * B.m12 + A.m32 * B.m22 + A.m33 * B.m32,
   A.m30 * B.m03 + A.m31 * B.m13 + A.m32 * B.m23 + A.m33 * B.m33⟩

/-- Modelled from the spec: `transpose_matrix(A)` swaps rows and columns. -/
def transpose_matrix (A : Mat4 α) : Mat4 α :=
  ⟨A.m00, A.m10, A.m20, A.m30,
   A.m01, A.m11, A.m21, A.m31,
   A.m02, A.m12, A.m22, A.m32,
   A.m03, A.m13, A.m23, A.m33⟩

/-- Determinant of a 3×3 matrix given row-major, by cofactor expansion. -/
def det3 (a b c d e f g h i : α) : α :=
  a * (e * i - f * h) - b * (d * i - f * g) + c * (d * h - e * g)

/-- Modelled from the spec: `matrix_determinant(A)` by closed-form cofactor
expansion along the first row. -/
def matrix_determinant (A : Mat4 α) : α :=
  A.m00 * det3 A.m11 A.m12 A.m13 A.m21 A.m22 A.m23 A.m31 A.m32 A.m33
  - A.m01 * det3 A.m10 A.m12 A.m13 A.m20 A.m22 A.m23 A.m30 A.m32 A.m33
  + A.m02 * det3 A.m10 A.m11 A.m13 A.m20 A.m21 A.m23 A.m30 A.m31 A.m33
  - A.m03 * det3 A.m10 A.m11 A.m12 A.m20 A.m21 A.m22 A.m30 A.m31 A.m32

/-- The adjugate (transposed cofactor matrix) of a 4×4 matrix: entry `(i, j)`
is the `(j, i)` cofactor `(-1)^(i+j)` times the minor deleting row `j`,
column `i`. -/
def matrix_adjugate (A : Mat4 α) : Mat4 α :=
  ⟨  det3 A.m11 A.m12 A.m13 A.m21 A.m22 A.m23 A.m31 A.m32 A.m33,
   - det3 A.m01 A.m02 A.m03 A.m21 A.m22 A.m23 A.m31 A.m32 A.m33,
     det3 A.m01 A.m02 A.m03 A.m11 A.m12 A.m13 A.m31 A.m32 A.m33,
   - det3 A.m01 A.m02 A.m03 A.m11 A.m12 A.m13 A.m21 A.m22 A.m23,
   - det3 A.m10 A.m12 A.m13 A.m20 A.m22 A.m23 A.m30 A.m32 A.m33,
     det3 A.m00 A.m02 A.m03 A.m20 A.m22 A.m23 A.m30 A.m32 A.m33,
   - det3 A.m00 A.m02 A.m03 A.m10 A.m12 A.m13 A.m30 A.m32 A.m33,
     det3 A.m00 A.m02 A.m03 A.m10 A.m12 A.m13 A.m20 A.m22 A.m23,
     det3 A.m10 A.m11 A.m13 A.m20 A.m21 A.m23 A.m30 A.m31 A.m33,
   - det3 A.m00 A.m01 A.m03 A.m20 A.m21 A.m23 A.m30 A.m31 A.m33,
     det3 A.m00 A.m01 A.m03 A.m10 A.m11 A.m13 A.m30 A.m31 A.m33,
   - det3 A.m00 A.m01 A.m03 A.m10 A.m11 A.m13 A.m20 A.m21 A.m23,
   - det3 A.m10 A.m11 A.m12 A.m20 A.m21 A.m22 A.m30 A.m31 A.m32,
     det3 A.m00 A.m01 A.m02 A.m20 A.m21 A.m22 A.m30 A.m31 A.m32,
   - det3 A.m00 A.m01 A.m02 A.m10 A.m11 A.m12 A.m30 A.m31 A.m32,
     det3 A.m00 A.m01 A.m02 A.m10 A.m11 A.m12 A.m20 A.m21 A.m22⟩

/-- Division of every entry of a matrix by a scalar. -/
def mat_div (A : Mat4 α) (s : α) : Mat4 α :=
  ⟨A.m00 / s, A.m01 / s, A.m02 / s, A.m03 / s,
   A.m10 / s, A.m11 / s, A.m12 / s, A.m13 / s,
   A.m20 / s, A.m21 / s, A.m22 / s, A.m23 / s,
   A.m30 / s, A.m31 / s, A.m32 / s, A.m33 / s⟩

/-- Modelled from the spec: `matrix_inverse(A)` is the adjugate/cofactor
inverse, failing with the spec's `SingularMatrixError` when the determinant
vanishes (the spec suggests a small tolerance for this test; the exact-zero
threshold is the conservative reading that every matrix with determinant
above tolerance passes). -/
def matrix_inverse (A : Mat4 α) : Except PyErr (Mat4 α) :=
  if matrix_determinant A = 0 then .error .singularMatrix
  else .ok (mat_div (matrix_adjugate A) (matrix_determinant A))

/-- Multiplication of every entry of a matrix by a scalar. -/
def mat_scale (s : α) (A : Mat4 α) : Mat4 α :=
  ⟨s * A.m00, s * A.m01, s * A.m02, s * A.m03,
   s * A.m10, s * A.m11, s * A.m12, s * A.m13,
   s * A.m20, s * A.m21, s * A.m22, s * A.m23,
   s * A.m30, s * A.m31, s * A.m32, s * A.m33⟩

/-- Dot product of two 3-vectors. -/
def dot (u v : Vec3 α) : α := u.x * v.x + u.y * v.y + u.z * v.z

/-- Cross product of two 3-vectors. -/
def cross (u v : Vec3 α) : Vec3 α :=
  ⟨u.y * v.z - u.z * v.y, u.z * v.x - u.x * v.z, u.x * v.y - u.y * v.x⟩

/-- A frame, consumed read-only: an origin point plus two basis vectors
(assumed orthonormal per the spec's data model; the `Frame` class itself is
out of scope). -/
structure Frame (α : Type) where
  (point xaxis yaxis : Vec3 α)
deriving DecidableEq

/-- The world-XY frame: origin at zero, basis the first two standard
vectors. -/
def worldXY : Frame α := ⟨⟨0, 0, 0⟩, ⟨1, 0, 0⟩, ⟨0, 1, 0⟩⟩

/-- Modelled from the spec: `matrix_from_frame(frame)` builds the world→frame
transform whose rotation columns are the frame's basis vectors `x̂`, `ŷ` and
`ẑ = x̂ × ŷ`, and whose last column is the frame's origin. -/
def matrix_from_frame (f : Frame α) : Mat4 α :=
  ⟨f.xaxis.x, f.yaxis.x, (cross f.xaxis f.yaxis).x, f.point.x,
   f.xaxis.y, f.yaxis.y, (cross f.xaxis f.yaxis).y, f.point.y,
   f.xaxis.z, f.yaxis.z, (cross f.xaxis f.yaxis).z, f.point.z,
   0, 0, 0, 1⟩

/-- The value content of a `Transformation` instance: it exclusively owns one
4×4 matrix.  (The aliasing behaviour of the backing Python lists is modelled
separately by `Store`.) -/
structure Transformation (α : Type) where
  matrix : Mat4 α
deriving DecidableEq

namespace Transformation

/-- Translation of `Transformation.from_list`.  The source fills an identity
matrix by the loop `matrix[i][j] = float(numbers[i * 4 + j])` for
`i, j < 4`: the first missing index raises `IndexError`, which happens
exactly when fewer than 16 numbers are given; numbers beyond the first 16
are never read. -/
def from_list (numbers : List α) : Except PyErr (Transformation α) :=
  if numbers.length < 16 then .error .indexError
  else .ok ⟨⟨numbers.getD 0 0, numbers.getD 1 0, numbers.getD 2 0, numbers.getD 3 0,
             numbers.getD 4 0, numbers.getD 5 0, numbers.getD 6 0, numbers.getD 7 0,
             numbers.getD 8 0, numbers.getD 9 0, numbers.getD 10 0, numbers.getD 11 0,
             numbers.getD 12 0, numbers.getD 13 0, numbers.getD 14 0, numbers.getD 15 0⟩⟩

/-- Translation of `Transformation.from_frame`. -/
def from_frame (f : Frame α) : Transformation α := ⟨matrix_from_frame f⟩

/-- Translation of `Transformation.from_frame_to_frame`:
`cls(multiply_matrices(T2.matrix, matrix_inverse(T1.matrix)))` with
`T1 = from_frame(frame_from)` and `T2 = from_frame(frame_to)`. -/
def from_frame_to_frame (frame_from frame_to : Frame α) :
    Except PyErr (Transformation α) :=
  match matrix_inverse (from_frame frame_from).matrix with
  | .error e => .error e
  | .ok inv1 => .ok ⟨multiply_matrices (from_frame frame_to).matrix inv1⟩

/-- Translation of `Transformation.change_basis`:
`cls(multiply_matrices(matrix_inverse(T2.matrix), T1.matrix))` with
`T1 = from_frame(frame_from)` and `T2 = from_frame(frame_to)`. -/
def change_basis (frame_from frame_to : Frame α) :
    Except PyErr (Transformation α) :=
  match matrix_inverse (from_frame frame_to).matrix with
  | .error e => .error e
  | .ok inv2 => .ok ⟨multiply_matrices inv2 (from_frame frame_from).matrix⟩

/-- Translation of `Transformation.concatenated` in the case where `self` is a
base `Transformation` (then `isinstance(other, cls)` always holds and the
result is `Transformation(multiply_matrices(self.matrix, other.matrix))`).
The dispatch on constrained subclasses is modelled below by
`PyTransformation.concatenated`. -/
def concatenated (self other : Transformation α) : Transformation α :=
  ⟨multiply_matrices self.matrix other.matrix⟩

/-- Translation of `Transformation.invert`:
`self.matrix = matrix_inverse(self.matrix)` (the value seen afterwards;
the raise of `matrix_inverse` propagates). -/
def invert (self : Transformation α) : Except PyErr (Transformation α) :=
  match matrix_inverse self.matrix with
  | .error e => .error e
  | .ok m => .ok ⟨m⟩

/-- Translation of `Transformation.inverse`: copy, then invert the copy; the
returned value is the inverted matrix.  (That the original instance is
untouched is a statement about the backing store, proved with the `Store`
model.) -/
def inverse (self : Transformation α) : Except PyErr (Transformation α) :=
  invert self

/-- Translation of `Transformation.determinant`. -/
def determinant (self : Transformation α) : α := matrix_determinant self.matrix

end Transformation

/-- A store modelling Python's reference semantics for the nested lists that
back `Transformation.matrix`: `rows` holds the row-list objects, `outers` the
matrix-list objects (each a list of references into `rows`), and `objs` the
`matrix` attributes of the `Transformation` instances (each a reference into
`outers`).  Indices are allocation order. -/
structure Store (β : Type) where
  rows : List (List β)
  outers : List (List Nat)
  objs : List Nat
deriving DecidableEq

namespace Store

variable {β : Type}

/-- The reference held by instance `o`'s `matrix` attribute. -/
def matRef (s : Store β) (o : Nat) : Nat := s.objs.getD o 0

/-- The row references of the matrix list referenced by instance `o`. -/
def rowRefs (s : Store β) (o : Nat) : List Nat := s.outers.getD (matRef s o) []

/-- The value of instance `o`'s matrix, with every reference dereferenced. -/
def matValue (s : Store β) (o : Nat) : List (List β) :=
  (rowRefs s o).map fun r => s.rows.getD r []

/-- Allocate a fresh list-of-lists value (as built by `identity_matrix`,
`multiply_matrices` or `matrix_inverse`, which always return new lists):
fresh row objects and a fresh matrix list referencing them.  Returns the new
store and the reference to the matrix list. -/
def newMatrix (s : Store β) (vals : List (List β)) : Store β × Nat :=
  (⟨s.rows ++ vals,
    s.outers ++ [(List.range vals.length).map (· + s.rows.length)],
    s.objs⟩, s.outers.length)

/-- Translation of `Transformation.__init__` in the store model: the new
instance stores the given matrix-list reference itself, without copying. -/
def init (s : Store β) (m : Nat) : Store β × Nat :=
  (⟨s.rows, s.outers, s.objs ++ [m]⟩, s.objs.length)

/-- A `Transformation(matrix)` call on a freshly built matrix value. -/
def newTrans (s : Store β) (vals : List (List β)) : Store β × Nat :=
  init (newMatrix s vals).1 (newMatrix s vals).2

/-- Translation of `Transformation.copy`: `cls(self.matrix.copy())`.
Python's `list.copy()` is a shallow copy: a fresh matrix list holding the
same row references. -/
def copy (s : Store β) (o : Nat) : Store β × Nat :=
  init ⟨s.rows, s.outers ++ [rowRefs s o], s.objs⟩ s.outers.length

/-- Translation of `Transformation.__setitem__`:
`self.matrix[i][j] = value` mutates row object `i` of the referenced matrix
list in place. -/
def setItem (s : Store β) (o : Nat) (i j : Nat) (v : β) : Store β :=
  ⟨s.rows.set ((rowRefs s o).getD i 0)
      ((s.rows.getD ((rowRefs s o).getD i 0) []).set j v),
   s.outers, s.objs⟩

/-- Translation of `Transformation.to_data`: the returned dict
`{'matrix': self.matrix}` holds the very same matrix-list reference. -/
def to_data (s : Store β) (o : Nat) : Nat := matRef s o

/-- Translation of `Transformation.from_data`: `cls(data['matrix'])` stores
the referenced list without copying. -/
def from_data (s : Store β) (m : Nat) : Store β × Nat := init s m

/-- Translation of `Transformation.invert` in the store model:
`matrix_inverse` builds a fresh list-of-lists from the current value (the
entry arithmetic is abstracted into `f`), and `self.matrix = ...` rebinds
the attribute to the fresh list. -/
def invert (f : List (List β) → List (List β)) (s : Store β) (o : Nat) :
    Store β :=
  ⟨(newMatrix s (f (matValue s o))).1.rows,
   (newMatrix s (f (matValue s o))).1.outers,
   s.objs.set o (newMatrix s (f (matValue s o))).2⟩

/-- Translation of `Transformation.inverse`:
`T = self.copy(); T.invert(); return T`. -/
def inverse (f : List (List β) → List (List β)) (s : Store β) (o : Nat) :
    Store β × Nat :=
  (invert f (copy s o).1 (copy s o).2, (copy s o).2)

/-- A well-formed store: every held reference is live. -/
def WF (s : Store β) : Prop :=
  (∀ m ∈ s.objs, m < s.outers.length) ∧
  (∀ rs ∈ s.outers, ∀ r ∈ rs, r < s.rows.length)

end Store

section ToleranceLayer

variable {κ : Type} [LinearOrderedField κ]

/-- The absolute tolerance `1e-05` used by `Transformation.__eq__` and by
`compas.geometry.allclose` (the spec's §4.3 tolerance). -/
def tol : κ := 1 / 100000

/-- Reading `M[i][j]` from a nested list; `none` models a raised
`IndexError`. -/
def getEntry (M : List (List κ)) (i j : Nat) : Option κ :=
  match M.get? i with
  | none => none
  | some row => row.get? j

/-- Translation of `Transformation.__eq__`.  The operands are the `matrix`
fields of the two objects; `none` models an operand where reading `.matrix`
raises (a non-`Transformation` operand or a missing field).  The body runs
under `try ... except BaseException: return False`, so a raising access
yields `False`; otherwise the double loop over `range(4)` compares entries
with absolute tolerance `tol`. -/
def pyEq (x y : Option (List (List κ))) : Bool :=
  match x, y with
  | some A, some B =>
    (List.range 4).all fun i => (List.range 4).all fun j =>
      match getEntry A i j, getEntry B i j with
      | some a, some b => decide (|a - b| ≤ tol)
      | _, _ => false
  | _, _ => false

/-- Modelled from the spec: `compas.geometry.allclose(l1, l2)`, elementwise
absolute comparison with tolerance `1e-05` over the zipped lists. -/
def allclose (l1 l2 : List κ) : Prop :=
  ∀ p ∈ l1.zip l2, |p.1 - p.2| ≤ tol

/-- Row-major flattening of a 4×4 matrix (`compas.utilities.flatten`). -/
def flatten4 {γ : Type} (M : Mat4 γ) : List γ :=
  [M.m00, M.m01, M.m02, M.m03, M.m10, M.m11, M.m12, M.m13,
   M.m20, M.m21, M.m22, M.m23, M.m30, M.m31, M.m32, M.m33]

instance (l1 l2 : List κ) : Decidable (allclose l1 l2) := by
  unfold allclose
  infer_instance

end ToleranceLayer

/-- Modelled from the spec: the canonical translation matrix
(`matrix_from_translation`): identity with the vector in the last column. -/
def matrix_from_translation (t : Vec3 α) : Mat4 α :=
  ⟨1, 0, 0, t.x,
   0, 1, 0, t.y,
   0, 0, 1, t.z,
   0, 0, 0, 1⟩

/-- Modelled from the spec: the canonical scale matrix
(`matrix_from_scale_factors`): the factors on the diagonal. -/
def matrix_from_scale_factors (s : Vec3 α) : Mat4 α :=
  ⟨s.x, 0, 0, 0,
   0, s.y, 0, 0,
   0, 0, s.z, 0,
   0, 0, 0, 1⟩

/-- Modelled from the spec: the canonical shear matrix
(`matrix_from_shear_entries`) for entries `[xy, xz, yz]`: unit upper
triangular. -/
def matrix_from_shear_entries (sh : Vec3 α) : Mat4 α :=
  ⟨1, sh.x, sh.y, 0,
   0, 1, sh.z, 0,
   0, 0, 1, 0,
   0, 0, 0, 1⟩

/-- Modelled from the spec: the canonical perspective matrix
(`matrix_from_perspective_entries`): identity with the entries as the last
row. -/
def matrix_from_perspective_entries (p : Vec4 α) : Mat4 α :=
  ⟨1, 0, 0, 0,
   0, 1, 0, 0,
   0, 0, 1, 0,
   p.a, p.b, p.c, p.d⟩

noncomputable section DecompositionEngine

/-- The standard two-argument arctangent `atan2(y, x)`: the angle of the
complex number `x + i y`, in `(-π, π]`. -/
def atan2 (y x : ℝ) : ℝ := Complex.arg ⟨x, y⟩

/-- Modelled from the spec: the canonical rotation matrix from static-axes
XYZ Euler angles `(ax, ay, az)` (`matrix_from_euler_angles` with
`static=True, axes='xyz'`): rotation about the fixed x-axis by `ax`, then
the fixed y-axis by `ay`, then the fixed z-axis by `az`. -/
def matrix_from_euler_angles (v : Vec3 ℝ) : Mat4 ℝ :=
  ⟨Real.cos v.y * Real.cos v.z,
   Real.sin v.x * Real.sin v.y * Real.cos v.z - Real.cos v.x * Real.sin v.z,
   Real.cos v.x * Real.sin v.y * Real.cos v.z + Real.sin v.x * Real.sin v.z,
   0,
   Real.cos v.y * Real.sin v.z,
   Real.sin v.x * Real.sin v.y * Real.sin v.z + Real.cos v.x * Real.cos v.z,
   Real.cos v.x * Real.sin v.y * Real.sin v.z - Real.sin v.x * Real.cos v.z,
   0,
   -Real.sin v.y,
   Real.sin v.x * Real.cos v.y,
   Real.cos v.x * Real.cos v.y,
   0,
   0, 0, 0, 1⟩

/-- Euclidean norm of a 3-vector. -/
def norm3 (v : Vec3 ℝ) : ℝ := Real.sqrt (dot v v)

/-- Componentwise scalar multiple. -/
def smul3 (c : ℝ) (v : Vec3 ℝ) : Vec3 ℝ := ⟨c * v.x, c * v.y, c * v.z⟩

/-- Componentwise difference. -/
def sub3 (u v : Vec3 ℝ) : Vec3 ℝ := ⟨u.x - v.x, u.y - v.y, u.z - v.z⟩

/-- Componentwise division by a scalar (vector normalisation). -/
def div3 (v : Vec3 ℝ) (c : ℝ) : Vec3 ℝ := ⟨v.x / c, v.y / c, v.z / c⟩

/-- The spec's `DecomposedComponents`: scale, shear `[xy, xz, yz]`,
static-XYZ rotation angles, translation, perspective. -/
structure DecomposedComponents where
  scale : Vec3 ℝ
  shear : Vec3 ℝ
  angles : Vec3 ℝ
  translation : Vec3 ℝ
  perspective : Vec4 ℝ

/-- Result of the Gram-Schmidt factor-extraction phase: scales, stored shear
entries, and the orthonormalised vectors. -/
structure GSResult where
  sx : ℝ
  sy : ℝ
  sz : ℝ
  shxy : ℝ
  shxz : ℝ
  shyz : ℝ
  u0 : Vec3 ℝ
  u1 : Vec3 ℝ
  u2 : Vec3 ℝ

/-- Modelled from the spec (§4.2 steps 4-6): Gram-Schmidt factor extraction
from the three vectors of the linear part.  A zero-length vector at any of
the three normalisations is the degenerate case failing with the spec's
`SingularMatrixError`.  Each stored shear entry is expressed relative to the
already-extracted scale of the row it was measured against (divided by the
following scale factor), as forced by the spec's §4.2 round-trip contract
with the canonical unit-triangular shear matrix. -/
def gs_phase (r0 r1 r2 : Vec3 ℝ) : Except PyErr GSResult :=
  let sx := norm3 r0
  if sx = 0 then .error .singularMatrix else
  let u0 := div3 r0 sx
  let shxy0 := dot u0 r1
  let r1o := sub3 r1 (smul3 shxy0 u0)
  let sy := norm3 r1o
  if sy = 0 then .error .singularMatrix else
  let u1 := div3 r1o sy
  let shxz0 := dot u0 r2
  let r2a := sub3 r2 (smul3 shxz0 u0)
  let shyz0 := dot u1 r2a
  let r2o := sub3 r2a (smul3 shyz0 u1)
  let sz := norm3 r2o
  if sz = 0 then .error .singularMatrix else
  .ok ⟨sx, sy, sz, shxy0 / sy, shxz0 / sz, shyz0 / sz, u0, u1, div3 r2o sz⟩

/-- The engine tolerance for detecting a perspective last row (§4.2 step 1;
the spec leaves the value open, any small positive value below the 1e-5
contract tolerance works). -/
def eps : ℝ := 1 / 1000000000

/-- Modelled from the spec: the Decomposition Engine `decompose_matrix`
(§4.2).  The spec's `r0, r1, r2` are taken as the rows of the transposed
linear part — the columns of `M` — which is the reading under which the
spec's defining round-trip contract
`Translation ∘ Rotation ∘ Shear ∘ Scale = M` holds (its §9 flags the
rows-versus-columns choice as the point to verify against exactly that
contract).  Step 7's reflection convention and step 8's static-XYZ `atan2`
extraction with gimbal-lock fallback follow the spec's words. -/
def decompose_matrix (M : Mat4 ℝ) : Except PyErr DecomposedComponents :=
  let perspective : Vec4 ℝ :=
    if |M.m30| > eps ∨ |M.m31| > eps ∨ |M.m32| > eps ∨ |M.m33 - 1| > eps then
      if M.m33 ≠ 0 then ⟨M.m30 / M.m33, M.m31 / M.m33, M.m32 / M.m33, 1⟩
      else ⟨M.m30, M.m31, M.m32, 0⟩
    else ⟨0, 0, 0, 1⟩
  let translation : Vec3 ℝ := ⟨M.m03, M.m13, M.m23⟩
  match gs_phase ⟨M.m00, M.m10, M.m20⟩ ⟨M.m01, M.m11, M.m21⟩
      ⟨M.m02, M.m12, M.m22⟩ with
  | .error e => .error e
  | .ok g =>
    let flip := dot g.u0 (cross g.u1 g.u2) < 0
    let scale : Vec3 ℝ := if flip then ⟨-g.sx, g.sy, g.sz⟩ else ⟨g.sx, g.sy, g.sz⟩
    let w0 : Vec3 ℝ := if flip then smul3 (-1) g.u0 else g.u0
    let ay := Real.arcsin (-w0.z)
    let angles : Vec3 ℝ :=
      if Real.cos ay ≠ 0 then ⟨atan2 g.u1.z g.u2.z, ay, atan2 w0.y w0.x⟩
      else ⟨atan2 (-g.u2.y) g.u1.y, ay, 0⟩
    .ok ⟨scale, ⟨g.shxy, g.shxz, g.shyz⟩, angles, translation, perspective⟩

/-- Translation of `Transformation.decomposed`: decompose, then rebuild the
five constrained-family components through their canonical factories
(`Scale.from_factors`, `Shear.from_entries`,
`Rotation.from_euler_angles(static, 'xyz')`, `Translation.from_vector`,
`Projection.from_entries` — none of which re-validates). -/
def Transformation.decomposed (self : Transformation ℝ) :
    Except PyErr (Transformation ℝ × Transformation ℝ × Transformation ℝ ×
      Transformation ℝ × Transformation ℝ) :=
  match decompose_matrix self.matrix with
  | .error e => .error e
  | .ok c =>
    .ok (⟨matrix_from_scale_factors c.scale⟩,
         ⟨matrix_from_shear_entries c.shear⟩,
         ⟨matrix_from_euler_angles c.angles⟩,
         ⟨matrix_from_translation c.translation⟩,
         ⟨matrix_from_perspective_entries c.perspective⟩)

/-- The Python class of an instance in the excerpt: the base
`Transformation` or the constrained `Scale` family of `scale.py` (the spec
notes the other families follow the identical pattern). -/
inductive TClass where
  | transformation : TClass
  | scale : TClass
deriving DecidableEq

/-- A transformation instance together with its Python class. -/
structure PyTransformation where
  cls : TClass
  matrix : Mat4 ℝ

/-- Translation of `Scale.__init__` for a non-`None` matrix argument (a
nested-list matrix is always truthy, so `if matrix:` runs the validation):
decompose, rebuild the canonical scale matrix from the extracted factors,
and raise `ValueError` — the spec's `InvalidTransformError` — unless the
flattened matrices are `allclose`; only then is the instance created. -/
def scaleInit (M : Mat4 ℝ) : Except PyErr PyTransformation :=
  match decompose_matrix M with
  | .error e => .error e
  | .ok c =>
    if allclose (flatten4 M) (flatten4 (matrix_from_scale_factors c.scale))
    then .ok ⟨.scale, M⟩
    else .error .invalidTransform

/-- Running class `c`'s constructor on a matrix: the base constructor stores
the matrix unconditionally; the `Scale` constructor validates. -/
def pyInit (c : TClass) (M : Mat4 ℝ) : Except PyErr PyTransformation :=
  match c with
  | .transformation => .ok ⟨.transformation, M⟩
  | .scale => scaleInit M

/-- Python's `isinstance(other, cls)` for the two-class hierarchy
(`Scale` is a subclass of `Transformation`). -/
def isinstance (other : PyTransformation) (c : TClass) : Prop :=
  c = .transformation ∨ other.cls = c

instance (other : PyTransformation) (c : TClass) :
    Decidable (isinstance other c) := by
  unfold isinstance
  infer_instance

/-- Translation of `Transformation.concatenated` with the class dispatch:
`cls = type(self); if isinstance(other, cls): return cls(multiply_matrices(
self.matrix, other.matrix)); return Transformation(multiply_matrices(...))`.
Calling `cls(...)` runs that class's constructor, including a constrained
family's validation. -/
def PyTransformation.concatenated (self other : PyTransformation) :
    Except PyErr PyTransformation :=
  if isinstance other self.cls then
    pyInit self.cls (multiply_matrices self.matrix other.matrix)
  else
    .ok ⟨.transformation, multiply_matrices self.matrix other.matrix⟩

/-- Modelled from the spec: `matrix_from_change_of_basis(frame_from,
frame_to)`, the change-of-basis matrix of §4.3:
`inverse(from_frame(frame_to)) ∘ from_frame(frame_from)`. -/
def matrix_from_change_of_basis (frame_from frame_to : Frame ℝ) :
    Except PyErr (Mat4 ℝ) :=
  match matrix_inverse (matrix_from_frame frame_to) with
  | .error e => .error e
  | .ok inv2 => .ok (multiply_matrices inv2 (matrix_from_frame frame_from))

/-- Translation of `Scale.from_factors(factors, frame)`: `S = cls()` (no
validation, since the matrix argument is `None`), then the matrix is
assigned directly — the canonical scale matrix, or, when a frame is given,
the sandwich
`multiply_matrices(multiply_matrices(Tw, Sc), Tl)` with
`Tl = matrix_from_change_of_basis(worldXY, frame)` and
`Tw = matrix_from_change_of_basis(frame, worldXY)`. -/
def scale_from_factors (factors : Vec3 ℝ) (frame : Option (Frame ℝ)) :
    Except PyErr PyTransformation :=
  match frame with
  | none => .ok ⟨.scale, matrix_from_scale_factors factors⟩
  | some fr =>
    match matrix_from_change_of_basis worldXY fr,
        matrix_from_change_of_basis fr worldXY with
    | .error e, _ => .error e
    | _, .error e => .error e
    | .ok Tl, .ok Tw =>
      .ok ⟨.scale,
        multiply_matrices (multiply_matrices Tw (matrix_from_scale_factors factors)) Tl⟩

end DecompositionEngine

/-- Modelled from the spec: applying a transform to a point multiplies the
homogeneous column `(x, y, z, 1)` and dehomogenises by the resulting
weight. -/
def transform_point (M : Mat4 α) (p : Vec3 α) : Vec3 α :=
  let w := M.m30 * p.x + M.m31 * p.y + M.m32 * p.z + M.m33
  ⟨(M.m00 * p.x + M.m01 * p.y + M.m02 * p.z + M.m03) / w,
   (M.m10 * p.x + M.m11 * p.y + M.m12 * p.z + M.m13) / w,
   (M.m20 * p.x + M.m21 * p.y + M.m22 * p.z + M.m23) / w⟩

/-- A store holding one `Transformation` whose matrix is the identity as
nested lists (used to exercise the aliasing behaviour of `copy`). -/
def aliasDemoT : Store ℚ × Nat :=
  Store.newTrans ⟨[], [], []⟩
    [[1, 0, 0, 0], [0, 1, 0, 0], [0, 0, 1, 0], [0, 0, 0, 1]]

/-- The shallow copy `C = T.copy()` of the demo instance. -/
def aliasDemoC : Store ℚ × Nat := Store.copy aliasDemoT.1 aliasDemoT.2

/-- The store after `C[0, 0] = 5` on the copy. -/
def aliasDemoAfter : Store ℚ := Store.setItem aliasDemoC.1 aliasDemoC.2 0 0 5

/-- A diagonal transformation with determinant 2, and its inverse value. -/
def invDemoT : Transformation ℚ :=
  ⟨⟨1, 0, 0, 0, 0, 1, 0, 0, 0, 0, 1, 0, 0, 0, 0, 2⟩⟩

/-- The inverse value of `invDemoT`. -/
def invDemoTinv : Transformation ℚ :=
  ⟨⟨1, 0, 0, 0, 0, 1, 0, 0, 0, 0, 1, 0, 0, 0, 0, 1 / 2⟩⟩

/-- A small well-formed store with a single two-row instance. -/
def invDemoStore : Store ℚ :=
  ⟨[[1, 0], [0, 1]], [[0, 1]], [0]⟩

/-- Row-major list of 16 numbers with translation 3, 4, 5 at indices
3, 7, 11. -/
def listDemo16 : List ℚ :=
  [1, 0, 0, 3, 0, 1, 0, 4, 0, 0, 1, 5, 0, 0, 0, 1]

/-- The same list with one extra trailing number (length 17). -/
def listDemo17 : List ℚ := listDemo16 ++ [99]

/-- A translated frame with world-aligned axes. -/
def frameDemoB : Frame ℚ := ⟨⟨1, 2, 3⟩, ⟨1, 0, 0⟩, ⟨0, 1, 0⟩⟩

/-- A store with one instance backed by a 4×4 identity value. -/
def serialDemoStore : Store ℚ :=
  ⟨[[1, 0, 0, 0], [0, 1, 0, 0], [0, 0, 1, 0], [0, 0, 0, 1]], [[0, 1, 2, 3]], [0]⟩

/-- First column of the static-XYZ Euler rotation matrix. -/
noncomputable def eulerCol0 (ax ay az : ℝ) : Vec3 ℝ :=
  ⟨Real.cos ay * Real.cos az, Real.cos ay * Real.sin az, -Real.sin ay⟩

/-- Second column of the static-XYZ Euler rotation matrix. -/
noncomputable def eulerCol1 (ax ay az : ℝ) : Vec3 ℝ :=
  ⟨Real.sin ax * Real.sin ay * Real.cos az - Real.cos ax * Real.sin az,
   Real.sin ax * Real.sin ay * Real.sin az + Real.cos ax * Real.cos az,
   Real.sin ax * Real.cos ay⟩

/-- Third column of the static-XYZ Euler rotation matrix. -/
noncomputable def eulerCol2 (ax ay az : ℝ) : Vec3 ℝ :=
  ⟨Real.cos ax * Real.sin ay * Real.cos az + Real.sin ax * Real.sin az,
   Real.cos ax * Real.sin ay * Real.sin az - Real.sin ax * Real.cos az,
   Real.cos ax * Real.cos ay⟩

theorem mul_adjugate_eq (A : Mat4 α) :
    multiply_matrices A (matrix_adjugate A) =
      mat_scale (matrix_determinant A) identity_matrix := by
  simp only [multiply_matrices, mat_scale, matrix_adjugate, matrix_determinant,
    det3, identity_matrix, Mat4.mk.injEq]
  refine ⟨?_, ?_, ?_, ?_, ?_, ?_, ?_, ?_, ?_, ?_, ?_, ?_, ?_, ?_, ?_, ?_⟩ <;> ring

theorem mul_mat_div (A B : Mat4 α) (s : α) :
    multiply_matrices A (mat_div B s) = mat_div (multiply_matrices A B) s := by
  simp only [multiply_matrices, mat_div, Mat4.mk.injEq]
  refine ⟨?_, ?_, ?_, ?_, ?_, ?_, ?_, ?_, ?_, ?_, ?_, ?_, ?_, ?_, ?_, ?_⟩ <;> ring

theorem mul_inverse_of_det_ne_zero (A : Mat4 α)
    (h : matrix_determinant A ≠ 0) :
    multiply_matrices A (mat_div (matrix_adjugate A) (matrix_determinant A)) =
      identity_matrix := by
  rw [mul_mat_div, mul_adjugate_eq]
  simp only [mat_div, mat_scale, identity_matrix, Mat4.mk.injEq]
  refine ⟨?_, ?_, ?_, ?_, ?_, ?_, ?_, ?_, ?_, ?_, ?_, ?_, ?_, ?_, ?_, ?_⟩ <;>
    field_simp

/-- Determinant of a `from_frame` matrix with orthonormal basis vectors:
an affine matrix whose linear columns are `x̂`, `ŷ`, `x̂ × ŷ`. -/
theorem det_matrix_from_frame (f : Frame α)
    (hx : dot f.xaxis f.xaxis = 1) (hy : dot f.yaxis f.yaxis = 1)
    (hxy : dot f.xaxis f.yaxis = 0) :
    matrix_determinant (matrix_from_frame f) = 1 := by
  simp only [dot] at hx hy hxy
  simp only [matrix_determinant, matrix_from_frame, det3, cross]
  linear_combination (f.yaxis.x * f.yaxis.x + f.yaxis.y * f.yaxis.y +
      f.yaxis.z * f.yaxis.z) * hx + hy -
    (f.xaxis.x * f.yaxis.x + f.xaxis.y * f.yaxis.y + f.xaxis.z * f.yaxis.z) * hxy

namespace Store

variable {β : Type}

theorem getD_append_left {γ : Type} (l l' : List γ) (d : γ) {i : Nat}
    (h : i < l.length) : (l ++ l').getD i d = l.getD i d := by
  simp [List.getD_eq_getElem?_getD, List.getElem?_append_left h]

theorem matRef_lt (s : Store β) (o : Nat) (hWF : WF s)
    (ho : o < s.objs.length) : matRef s o < s.outers.length := by
  have : matRef s o = s.objs[o] := by
    simp [matRef, List.getD_eq_getElem?_getD, List.getElem?_eq_getElem ho]
  rw [this]
  exact hWF.1 _ (List.getElem_mem ho)

theorem rowRefs_lt (s : Store β) (o : Nat) (hWF : WF s)
    (ho : o < s.objs.length) : ∀ r ∈ rowRefs s o, r < s.rows.length := by
  have hm := matRef_lt s o hWF ho
  have : rowRefs s o = s.outers[matRef s o] := by
    simp [rowRefs, List.getD_eq_getElem?_getD, List.getElem?_eq_getElem hm]
  rw [this]
  exact hWF.2 _ (List.getElem_mem hm)

/-- `inverse` works on a copy: after `T2 = T.inverse()`, the original
instance `o` still dereferences to its old matrix value. -/
theorem matValue_inverse_unchanged (f : List (List β) → List (List β))
    (s : Store β) (o : Nat) (hWF : WF s) (ho : o < s.objs.length) :
    matValue (inverse f s o).1 o = matValue s o := by
  have hm := matRef_lt s o hWF ho
  have hr := rowRefs_lt s o hWF ho
  have hobjs : matRef (inverse f s o).1 o = matRef s o := by
    simp only [inverse, invert, copy, init, newMatrix, matRef]
    rw [List.getD_eq_getElem?_getD, List.getElem?_set_ne (Nat.ne_of_gt ho),
      List.getElem?_append_left ho, ← List.getD_eq_getElem?_getD]
  have houters : rowRefs (inverse f s o).1 o = rowRefs s o := by
    rw [rowRefs, hobjs, rowRefs]
    simp only [inverse, invert, copy, init, newMatrix]
    rw [getD_append_left _ _ _ (by simpa using Nat.lt_succ_of_lt hm),
      getD_append_left _ _ _ hm]
  rw [matValue, houters, matValue]
  apply List.map_congr_left
  intro r hrr
  have hrlt : r < s.rows.length := hr r hrr
  simp only [inverse, invert, copy, init, newMatrix]
  exact getD_append_left _ _ _ hrlt

end Store

/-- C4 (counterexample): `Transformation.from_list` does not raise on a list
of 17 numbers — it succeeds, reading only the first 16 entries — refuting
the claim that every list whose length is not 16 raises
`DimensionMismatchError`. -/
theorem from_list_seventeen_numbers_no_error :
    Transformation.from_list listDemo17 =
      .ok ⟨⟨1, 0, 0, 3, 0, 1, 0, 4, 0, 0, 1, 5, 0, 0, 0, 1⟩⟩ := by
  norm_num [Transformation.from_list, listDemo17, listDemo16]

/-- C4 (amended): `from_list` raises (an `IndexError`, at the first missing
element) exactly when fewer than 16 numbers are given; for any list of 16 or
more numbers it succeeds, the matrix holding the first 16 numbers in
row-major order, with the translation components taken from indices
3, 7 and 11. -/
theorem from_list_spec (l : List α) :
    (l.length < 16 → Transformation.from_list l = .error .indexError) ∧
    (16 ≤ l.length →
      Transformation.from_list l =
        .ok ⟨⟨l.getD 0 0, l.getD 1 0, l.getD 2 0, l.getD 3 0,
              l.getD 4 0, l.getD 5 0, l.getD 6 0, l.getD 7 0,
              l.getD 8 0, l.getD 9 0, l.getD 10 0, l.getD 11 0,
              l.getD 12 0, l.getD 13 0, l.getD 14 0, l.getD 15 0⟩⟩) := by
  constructor
  · intro h
    rw [Transformation.from_list, if_pos h]
  · intro h
    rw [Transformation.from_list, if_neg (Nat.not_lt.mpr h)]

/-- C4 witness: the amended statement applied to a concrete 16-number list. -/
theorem from_list_spec_witness :
    Transformation.from_list listDemo16 =
      .ok ⟨⟨1, 0, 0, 3, 0, 1, 0, 4, 0, 0, 1, 5, 0, 0, 0, 1⟩⟩ := by
  have h := (from_list_spec listDemo16).2 (by norm_num [listDemo16])
  rw [h]
  norm_num [listDemo16]

/-- C5: `from_frame_to_frame(A, B)` is exactly
`multiply_matrices(from_frame(B).matrix, matrix_inverse(from_frame(A).matrix))`
and `change_basis(A, B)` is exactly
`multiply_matrices(matrix_inverse(from_frame(B).matrix), from_frame(A).matrix)`;
for orthonormal frames the two inverses exist and both factories succeed
with exactly those products (each computed by its own formula). -/
theorem from_frame_to_frame_change_basis_formulas (A B : Frame α)
    (hxA : dot A.xaxis A.xaxis = 1) (hyA : dot A.yaxis A.yaxis = 1)
    (hxyA : dot A.xaxis A.yaxis = 0)
    (hxB : dot B.xaxis B.xaxis = 1) (hyB : dot B.yaxis B.yaxis = 1)
    (hxyB : dot B.xaxis B.yaxis = 0) :
    ∃ invA invB,
      matrix_inverse (Transformation.from_frame A).matrix = .ok invA ∧
      matrix_inverse (Transformation.from_frame B).matrix = .ok invB ∧
      Transformation.from_frame_to_frame A B =
        .ok ⟨multiply_matrices (Transformation.from_frame B).matrix invA⟩ ∧
      Transformation.change_basis A B =
        .ok ⟨multiply_matrices invB (Transformation.from_frame A).matrix⟩ := by
  have hdA := det_matrix_from_frame A hxA hyA hxyA
  have hdB := det_matrix_from_frame B hxB hyB hxyB
  have hA : matrix_inverse (Transformation.from_frame A).matrix =
      .ok (mat_div (matrix_adjugate (matrix_from_frame A))
        (matrix_determinant (matrix_from_frame A))) := by
    rw [Transformation.from_frame, matrix_inverse,
      if_neg (by rw [hdA]; exact one_ne_zero)]
  have hB : matrix_inverse (Transformation.from_frame B).matrix =
      .ok (mat_div (matrix_adjugate (matrix_from_frame B))
        (matrix_determinant (matrix_from_frame B))) := by
    rw [Transformation.from_frame, matrix_inverse,
      if_neg (by rw [hdB]; exact one_ne_zero)]
  refine ⟨_, _, hA, hB, ?_, ?_⟩
  · rw [Transformation.from_frame_to_frame]
    simp only [hA]
  · rw [Transformation.change_basis]
    simp only [hB]

/-- C5 witness: the factories applied to the world frame and a translated
frame. -/
theorem from_frame_to_frame_change_basis_formulas_witness :
    ∃ invA invB,
      matrix_inverse (Transformation.from_frame (worldXY : Frame ℚ)).matrix = .ok invA ∧
      matrix_inverse (Transformation.from_frame frameDemoB).matrix = .ok invB ∧
      Transformation.from_frame_to_frame worldXY frameDemoB =
        .ok ⟨multiply_matrices (Transformation.from_frame frameDemoB).matrix invA⟩ ∧
      Transformation.change_basis worldXY frameDemoB =
        .ok ⟨multiply_matrices invB (Transformation.from_frame (worldXY : Frame ℚ)).matrix⟩ :=
  from_frame_to_frame_change_basis_formulas worldXY frameDemoB
    (by norm_num [dot, worldXY]) (by norm_num [dot, worldXY])
    (by norm_num [dot, worldXY]) (by norm_num [dot, frameDemoB])
    (by norm_num [dot, frameDemoB]) (by norm_num [dot, frameDemoB])

/-- C2 (code-bug demonstration): `copy` translates
`cls(self.matrix.copy())`, and `list.copy()` is a shallow copy sharing the
row lists; assigning element `(0, 0)` of the copy to `5` therefore changes
the original instance's matrix value from the identity to one with `5` at
`(0, 0)` — the original is not independent. -/
theorem copy_setitem_mutates_original :
    Store.matValue aliasDemoT.1 aliasDemoT.2 =
      [[1, 0, 0, 0], [0, 1, 0, 0], [0, 0, 1, 0], [0, 0, 0, 1]] ∧
    Store.matValue aliasDemoAfter aliasDemoT.2 =
      [[5, 0, 0, 0], [0, 1, 0, 0], [0, 0, 1, 0], [0, 0, 0, 1]] := by
  constructor <;>
    norm_num [aliasDemoT, aliasDemoC, aliasDemoAfter, Store.newTrans,
      Store.newMatrix, Store.init, Store.copy, Store.setItem, Store.matValue,
      Store.rowRefs, Store.matRef, List.range_succ]

/-- C6: for an invertible `Transformation` (nonzero determinant, so in
particular any determinant above tolerance), `T * T.inverse()` is exactly
the 4×4 identity matrix — hence elementwise within 1e-5 of it — and
`inverse()` works on a copy: the original instance's backing matrix value is
unchanged by it. -/
theorem concatenated_inverse_is_identity (T Tinv : Transformation α)
    (hinv : T.inverse = .ok Tinv) :
    T.concatenated Tinv = ⟨identity_matrix⟩ ∧
    ∀ (f : List (List α) → List (List α)) (s : Store α) (o : Nat),
      Store.WF s → o < s.objs.length →
        Store.matValue (Store.inverse f s o).1 o = Store.matValue s o := by
  constructor
  · have h0 : matrix_determinant T.matrix ≠ 0 ∧
        Tinv = ⟨mat_div (matrix_adjugate T.matrix) (matrix_determinant T.matrix)⟩ := by
      by_cases h : matrix_determinant T.matrix = 0
      · rw [Transformation.inverse, Transformation.invert, matrix_inverse,
          if_pos h] at hinv
        exact absurd hinv (by simp)
      · rw [Transformation.inverse, Transformation.invert, matrix_inverse,
          if_neg h] at hinv
        simp only [Except.ok.injEq] at hinv
        exact ⟨h, hinv.symm⟩
    obtain ⟨hd, rfl⟩ := h0
    show Transformation.mk
        (multiply_matrices T.matrix
          (mat_div (matrix_adjugate T.matrix) (matrix_determinant T.matrix))) = _
    rw [mul_inverse_of_det_ne_zero T.matrix hd]
  · intro f s o hWF ho
    exact Store.matValue_inverse_unchanged f s o hWF ho

/-- C6 witness: a diagonal matrix with determinant 2 and a concrete store. -/
theorem concatenated_inverse_is_identity_witness :
    Transformation.concatenated invDemoT invDemoTinv = ⟨identity_matrix⟩ ∧
    Store.matValue (Store.inverse (fun m => m) invDemoStore 0).1 0 =
      Store.matValue invDemoStore 0 := by
  have h := concatenated_inverse_is_identity invDemoT invDemoTinv
    (by norm_num [Transformation.inverse, Transformation.invert, matrix_inverse,
      matrix_determinant, matrix_adjugate, det3, mat_div, invDemoT, invDemoTinv])
  exact ⟨h.1, h.2 (fun m => m) invDemoStore 0
    (by constructor <;> decide) (by norm_num [invDemoStore])⟩

/-- C9 (counterexample): two present, well-formed but differently shaped
matrices — the 4×4 zero matrix and the 5×5 zero matrix — compare equal under
`__eq__`: only the leading 4×4 block is examined, so a differently shaped
matrix field does not yield `False`. -/
theorem pyEq_oversized_matrix_true :
    pyEq (some (List.replicate 4 (List.replicate 4 (0 : ℚ))))
        (some (List.replicate 5 (List.replicate 5 (0 : ℚ)))) = true := by
  norm_num [pyEq, getEntry, tol, List.range_succ, List.replicate]

/-- C9 (amended): `__eq__` is total and never raises: it returns `True`
exactly when both operands expose a matrix whose leading 4×4 block is fully
present and elementwise within absolute tolerance 1e-5; a missing matrix
field (e.g. a non-`Transformation` right operand) or any missing entry among
the first sixteen degrades to `False` rather than raising — but matrices
larger than 4×4 that agree on the leading block compare equal. -/
theorem pyEq_spec {κ : Type} [LinearOrderedField κ]
    (x y : Option (List (List κ))) :
    pyEq x y = true ↔
      ∃ A B, x = some A ∧ y = some B ∧
        ∀ i < 4, ∀ j < 4, ∃ a b,
          getEntry A i j = some a ∧ getEntry B i j = some b ∧
            |a - b| ≤ tol := by
  cases x with
  | none => simp [pyEq]
  | some A =>
    cases y with
    | none => simp [pyEq]
    | some B =>
      simp only [pyEq, List.all_eq_true, List.mem_range, Option.some.injEq]
      constructor
      · intro h
        refine ⟨A, B, rfl, rfl, ?_⟩
        intro i hi j hj
        have hij := h i hi j hj
        cases hA : getEntry A i j with
        | none => rw [hA] at hij; cases hij
        | some a =>
          cases hB : getEntry B i j with
          | none => rw [hA, hB] at hij; cases hij
          | some b =>
            rw [hA, hB] at hij
            exact ⟨a, b, rfl, rfl, of_decide_eq_true hij⟩
      · rintro ⟨A', B', hAe, hBe, h⟩
        obtain rfl : A = A' := hAe
        obtain rfl : B = B' := hBe
        intro i hi j hj
        obtain ⟨a, b, ha, hb, hab⟩ := h i hi j hj
        rw [ha, hb]
        exact decide_eq_true hab

theorem pyEq_refl_of_wf {κ : Type} [LinearOrderedField κ] (A : List (List κ))
    (hlen : 4 ≤ A.length) (hrow : ∀ row ∈ A, 4 ≤ row.length) :
    pyEq (some A) (some A) = true := by
  simp only [pyEq, List.all_eq_true, List.mem_range]
  intro i hi j hj
  have hiA : i < A.length := lt_of_lt_of_le hi hlen
  have hrowget : A.get? i = some A[i] := by
    simp [List.get?_eq_getElem?, List.getElem?_eq_getElem hiA]
  have hjrow : j < A[i].length :=
    lt_of_lt_of_le hj (hrow A[i] (List.getElem_mem hiA))
  have hentry : getEntry A i j = some (A[i])[j] := by
    rw [getEntry, hrowget]
    simp [List.get?_eq_getElem?, List.getElem?_eq_getElem hjrow]
  rw [hentry]
  simp only [sub_self, abs_zero]
  rw [decide_eq_true_eq, tol]
  positivity

/-- C10: serialization shares the backing matrix: `to_data` returns the very
same matrix-list reference the instance holds; `from_data(to_data(T))`
creates a distinct instance holding that same reference, so its value
coincides with `T`'s, mutating an element through either instance is
literally the same store update, and the deserialized instance compares
equal to `T` under `__eq__`. -/
theorem to_data_from_data_share_matrix {κ : Type} [LinearOrderedField κ]
    (s : Store κ) (o : Nat) (ho : o < s.objs.length)
    (hlen : 4 ≤ (Store.matValue s o).length)
    (hrow : ∀ row ∈ Store.matValue s o, 4 ≤ row.length) :
    Store.to_data s o = Store.matRef s o ∧
    (Store.from_data s (Store.to_data s o)).2 ≠ o ∧
    Store.matRef (Store.from_data s (Store.to_data s o)).1
        (Store.from_data s (Store.to_data s o)).2 = Store.matRef s o ∧
    Store.matValue (Store.from_data s (Store.to_data s o)).1
        (Store.from_data s (Store.to_data s o)).2 = Store.matValue s o ∧
    (∀ i j v, Store.setItem (Store.from_data s (Store.to_data s o)).1
        (Store.from_data s (Store.to_data s o)).2 i j v =
      Store.setItem (Store.from_data s (Store.to_data s o)).1 o i j v) ∧
    pyEq (some (Store.matValue (Store.from_data s (Store.to_data s o)).1
        (Store.from_data s (Store.to_data s o)).2))
      (some (Store.matValue s o)) = true := by
  have hne : (Store.from_data s (Store.to_data s o)).2 ≠ o := by
    simp only [Store.from_data, Store.init]
    exact Nat.ne_of_gt ho
  have href : Store.matRef (Store.from_data s (Store.to_data s o)).1
      (Store.from_data s (Store.to_data s o)).2 = Store.matRef s o := by
    simp only [Store.from_data, Store.init, Store.matRef, Store.to_data]
    rw [List.getD_eq_getElem?_getD, List.getElem?_append_right (Nat.le_refl _),
      Nat.sub_self]
    rfl
  have hrefo : Store.matRef (Store.from_data s (Store.to_data s o)).1 o =
      Store.matRef s o := by
    simp only [Store.from_data, Store.init, Store.matRef]
    rw [List.getD_eq_getElem?_getD, List.getElem?_append_left ho,
      ← List.getD_eq_getElem?_getD]
  have hval : Store.matValue (Store.from_data s (Store.to_data s o)).1
      (Store.from_data s (Store.to_data s o)).2 = Store.matValue s o := by
    rw [Store.matValue, Store.rowRefs, href]
    rfl
  refine ⟨rfl, hne, href, hval, ?_, ?_⟩
  · intro i j v
    rw [Store.setItem, Store.setItem, Store.rowRefs, Store.rowRefs, href, hrefo]
  · rw [hval]
    exact pyEq_refl_of_wf _ hlen hrow

/-- C9 witness-style instance: the amended characterisation applied at two
concrete operands. -/
theorem pyEq_spec_witness :
    pyEq (some [[(0 : ℚ)]]) (none : Option (List (List ℚ))) = true ↔
      ∃ A B, (some [[(0 : ℚ)]] : Option (List (List ℚ))) = some A ∧
        (none : Option (List (List ℚ))) = some B ∧
        ∀ i < 4, ∀ j < 4, ∃ a b,
          getEntry A i j = some a ∧ getEntry B i j = some b ∧ |a - b| ≤ tol :=
  pyEq_spec (some [[(0 : ℚ)]]) none

/-- C10 witness: the sharing statement at a concrete one-instance store. -/
theorem to_data_from_data_share_matrix_witness :
    Store.to_data serialDemoStore 0 = Store.matRef serialDemoStore 0 ∧
    (Store.from_data serialDemoStore (Store.to_data serialDemoStore 0)).2 ≠ 0 ∧
    Store.matValue (Store.from_data serialDemoStore
        (Store.to_data serialDemoStore 0)).1
        (Store.from_data serialDemoStore (Store.to_data serialDemoStore 0)).2 =
      Store.matValue serialDemoStore 0 ∧
    Store.setItem (Store.from_data serialDemoStore
        (Store.to_data serialDemoStore 0)).1
        (Store.from_data serialDemoStore (Store.to_data serialDemoStore 0)).2
        0 1 7 =
      Store.setItem (Store.from_data serialDemoStore
        (Store.to_data serialDemoStore 0)).1 0 0 1 7 ∧
    pyEq (some (Store.matValue (Store.from_data serialDemoStore
        (Store.to_data serialDemoStore 0)).1
        (Store.from_data serialDemoStore (Store.to_data serialDemoStore 0)).2))
      (some (Store.matValue serialDemoStore 0)) = true := by
  have h := to_data_from_data_share_matrix serialDemoStore 0
    (by norm_num [serialDemoStore])
    (by norm_num [Store.matValue, Store.rowRefs, Store.matRef, serialDemoStore])
    (by simp [Store.matValue, Store.rowRefs, Store.matRef, serialDemoStore])
  exact ⟨h.1, h.2.1, h.2.2.2.1, h.2.2.2.2.1 0 1 7, h.2.2.2.2.2⟩

/-- Gram-Schmidt phase on an orthonormal triple scaled by positive factors:
the scales, zero shear and the orthonormal vectors are recovered exactly. -/
theorem gs_phase_orthonormal (v0 v1 v2 : Vec3 ℝ) (sx sy sz : ℝ)
    (hsx : 0 < sx) (hsy : 0 < sy) (hsz : 0 < sz)
    (h00 : dot v0 v0 = 1) (h11 : dot v1 v1 = 1) (h22 : dot v2 v2 = 1)
    (h01 : dot v0 v1 = 0) (h02 : dot v0 v2 = 0) (h12 : dot v1 v2 = 0) :
    gs_phase (smul3 sx v0) (smul3 sy v1) (smul3 sz v2) =
      .ok ⟨sx, sy, sz, 0, 0, 0, v0, v1, v2⟩ := by
  obtain ⟨x0, y0, z0⟩ := v0
  obtain ⟨x1, y1, z1⟩ := v1
  obtain ⟨x2, y2, z2⟩ := v2
  simp only [dot] at h00 h11 h22 h01 h02 h12
  have hn0 : norm3 ⟨sx * x0, sx * y0, sx * z0⟩ = sx := by
    rw [norm3]
    simp only [dot]
    rw [show sx * x0 * (sx * x0) + sx * y0 * (sx * y0) + sx * z0 * (sx * z0) =
      sx ^ 2 by linear_combination sx ^ 2 * h00]
    exact Real.sqrt_sq hsx.le
  have hu0 : div3 ⟨sx * x0, sx * y0, sx * z0⟩ sx = ⟨x0, y0, z0⟩ := by
    simp only [div3, Vec3.mk.injEq]
    refine ⟨?_, ?_, ?_⟩ <;> field_simp
  have hsh0 : dot ⟨x0, y0, z0⟩ ⟨sy * x1, sy * y1, sy * z1⟩ = 0 := by
    simp only [dot]
    linear_combination sy * h01
  have hr1o : sub3 ⟨sy * x1, sy * y1, sy * z1⟩ ⟨0 * x0, 0 * y0, 0 * z0⟩ =
      ⟨sy * x1, sy * y1, sy * z1⟩ := by
    simp only [sub3, Vec3.mk.injEq]
    refine ⟨?_, ?_, ?_⟩ <;> ring
  have hn1 : norm3 ⟨sy * x1, sy * y1, sy * z1⟩ = sy := by
    rw [norm3]
    simp only [dot]
    rw [show sy * x1 * (sy * x1) + sy * y1 * (sy * y1) + sy * z1 * (sy * z1) =
      sy ^ 2 by linear_combination sy ^ 2 * h11]
    exact Real.sqrt_sq hsy.le
  have hu1 : div3 ⟨sy * x1, sy * y1, sy * z1⟩ sy = ⟨x1, y1, z1⟩ := by
    simp only [div3, Vec3.mk.injEq]
    refine ⟨?_, ?_, ?_⟩ <;> field_simp
  have hshxz : dot ⟨x0, y0, z0⟩ ⟨sz * x2, sz * y2, sz * z2⟩ = 0 := by
    simp only [dot]
    linear_combination sz * h02
  have hr2a : sub3 ⟨sz * x2, sz * y2, sz * z2⟩ ⟨0 * x0, 0 * y0, 0 * z0⟩ =
      ⟨sz * x2, sz * y2, sz * z2⟩ := by
    simp only [sub3, Vec3.mk.injEq]
    refine ⟨?_, ?_, ?_⟩ <;> ring
  have hshyz : dot ⟨x1, y1, z1⟩ ⟨sz * x2, sz * y2, sz * z2⟩ = 0 := by
    simp only [dot]
    linear_combination sz * h12
  have hr2o : sub3 ⟨sz * x2, sz * y2, sz * z2⟩ ⟨0 * x1, 0 * y1, 0 * z1⟩ =
      ⟨sz * x2, sz * y2, sz * z2⟩ := by
    simp only [sub3, Vec3.mk.injEq]
    refine ⟨?_, ?_, ?_⟩ <;> ring
  have hn2 : norm3 ⟨sz * x2, sz * y2, sz * z2⟩ = sz := by
    rw [norm3]
    simp only [dot]
    rw [show sz * x2 * (sz * x2) + sz * y2 * (sz * y2) + sz * z2 * (sz * z2) =
      sz ^ 2 by linear_combination sz ^ 2 * h22]
    exact Real.sqrt_sq hsz.le
  have hu2 : div3 ⟨sz * x2, sz * y2, sz * z2⟩ sz = ⟨x2, y2, z2⟩ := by
    simp only [div3, Vec3.mk.injEq]
    refine ⟨?_, ?_, ?_⟩ <;> field_simp
  simp only [gs_phase, smul3, hn0, if_neg hsx.ne', hu0, hsh0, hr1o, hn1,
    if_neg hsy.ne', hu1, hshxz, hr2a, hshyz, hr2o, hn2, if_neg hsz.ne', hu2,
    zero_div]

/-- Gram-Schmidt phase on a positive diagonal linear part. -/
theorem gs_phase_diag (a b c : ℝ) (ha : 0 < a) (hb : 0 < b) (hc : 0 < c) :
    gs_phase ⟨a, 0, 0⟩ ⟨0, b, 0⟩ ⟨0, 0, c⟩ =
      .ok ⟨a, b, c, 0, 0, 0, ⟨1, 0, 0⟩, ⟨0, 1, 0⟩, ⟨0, 0, 1⟩⟩ := by
  have h := gs_phase_orthonormal ⟨1, 0, 0⟩ ⟨0, 1, 0⟩ ⟨0, 0, 1⟩ a b c ha hb hc
    (by norm_num [dot]) (by norm_num [dot]) (by norm_num [dot])
    (by norm_num [dot]) (by norm_num [dot]) (by norm_num [dot])
  simpa [smul3] using h

theorem atan2_zero_one : atan2 0 1 = 0 := by
  have h : (⟨1, 0⟩ : ℂ) = 1 := Complex.ext rfl rfl
  rw [atan2, h, Complex.arg_one]

/-- The Decomposition Engine on a positive pure-scale matrix returns the
factors, zero shear, zero angles, zero translation and trivial
perspective. -/
theorem decompose_matrix_diag (a b c : ℝ) (ha : 0 < a) (hb : 0 < b)
    (hc : 0 < c) :
    decompose_matrix (matrix_from_scale_factors ⟨a, b, c⟩) =
      .ok ⟨⟨a, b, c⟩, ⟨0, 0, 0⟩, ⟨0, 0, 0⟩, ⟨0, 0, 0⟩, ⟨0, 0, 0, 1⟩⟩ := by
  simp only [decompose_matrix, matrix_from_scale_factors,
    gs_phase_diag a b c ha hb hc]
  norm_num [eps, dot, cross, Real.arcsin_zero, atan2_zero_one, Real.cos_zero]

/-- The Gram-Schmidt phase on the columns of the canonical shear matrix with
entry `xy = 1/2`: unit scales, the shear entry recovered, standard basis
rows. -/
theorem gs_phase_shear_demo :
    gs_phase ⟨1, 0, 0⟩ ⟨1 / 2, 1, 0⟩ ⟨0, 0, 1⟩ =
      .ok ⟨1, 1, 1, 1 / 2, 0, 0, ⟨1, 0, 0⟩, ⟨0, 1, 0⟩, ⟨0, 0, 1⟩⟩ := by
  have h1 : Real.sqrt (1 * 1 + 0 * 0 + 0 * 0) = 1 := by
    norm_num
  simp only [gs_phase, norm3, dot, div3, sub3, smul3]
  norm_num

/-- The Decomposition Engine on the canonical shear matrix with entry
`xy = 1/2`: unit scale, the shear entry recovered, zero angles. -/
theorem decompose_matrix_shear_demo :
    decompose_matrix (matrix_from_shear_entries ⟨1 / 2, 0, 0⟩) =
      .ok ⟨⟨1, 1, 1⟩, ⟨1 / 2, 0, 0⟩, ⟨0, 0, 0⟩, ⟨0, 0, 0⟩, ⟨0, 0, 0, 1⟩⟩ := by
  simp only [decompose_matrix, matrix_from_shear_entries, gs_phase_shear_demo]
  norm_num [eps, dot, cross, Real.arcsin_zero, atan2_zero_one, Real.cos_zero]

/-- C7: `Scale(matrix)` validates eagerly inside the constructor: when the
decomposition succeeds but rebuilding the canonical scale matrix from the
extracted factors does not reproduce the input within tolerance, it raises
the `InvalidTransformError` (`ValueError`) — and, errors being modelled as
`Except.error`, no instance exists; when the rebuild does round-trip, the
instance is accepted, holding exactly the given matrix. -/
theorem scaleInit_spec (M : Mat4 ℝ) (c : DecomposedComponents)
    (hdec : decompose_matrix M = .ok c) :
    (¬ allclose (flatten4 M) (flatten4 (matrix_from_scale_factors c.scale)) →
      scaleInit M = .error .invalidTransform) ∧
    (allclose (flatten4 M) (flatten4 (matrix_from_scale_factors c.scale)) →
      scaleInit M = .ok ⟨.scale, M⟩) := by
  constructor <;> intro h <;> simp [scaleInit, hdec, h]

theorem allclose_self {κ : Type} [LinearOrderedField κ] (l : List κ) :
    allclose l l := by
  induction l with
  | nil =>
    intro p hp
    simp [List.zip] at hp
  | cons x xs ih =>
    intro p hp
    rw [List.zip_cons_cons] at hp
    rcases List.mem_cons.mp hp with rfl | hmem
    · simp only [sub_self, abs_zero, tol]
      positivity
    · exact ih p hmem

/-- C7 witness: the shear matrix with `xy = 1/2` is rejected, the pure scale
matrix `diag(2, 4, 6)` is accepted. -/
theorem scaleInit_spec_witness :
    scaleInit (matrix_from_shear_entries ⟨1 / 2, 0, 0⟩) =
      .error .invalidTransform ∧
    scaleInit (matrix_from_scale_factors ⟨2, 4, 6⟩) =
      .ok ⟨.scale, matrix_from_scale_factors ⟨2, 4, 6⟩⟩ := by
  constructor
  · refine (scaleInit_spec _ _ decompose_matrix_shear_demo).1 ?_
    intro h
    have hmem : ((1 : ℝ) / 2, (0 : ℝ)) ∈
        (flatten4 (matrix_from_shear_entries (⟨1 / 2, 0, 0⟩ : Vec3 ℝ))).zip
          (flatten4 (matrix_from_scale_factors (⟨1, 1, 1⟩ : Vec3 ℝ))) := by
      simp only [flatten4, matrix_from_shear_entries, matrix_from_scale_factors,
        List.zip_cons_cons, List.zip_nil_left, List.mem_cons]
      norm_num
    have h2 := h _ hmem
    rw [tol] at h2
    have h3 : (1 : ℝ) / 2 - 0 ≤ 1 / 100000 := le_trans (le_abs_self _) h2
    norm_num at h3
  · exact (scaleInit_spec _ _
      (decompose_matrix_diag 2 4 6 (by norm_num) (by norm_num) (by norm_num))).2
      (allclose_self _)

/-- C3 (counterexample): concatenating two `Scale` instances returns a
`Scale`-classed result produced by re-running the validating `Scale`
constructor on the product — not a base-`Transformation`-typed result. -/
theorem concatenated_same_family_returns_scale :
    PyTransformation.concatenated ⟨.scale, matrix_from_scale_factors ⟨1, 2, 3⟩⟩
        ⟨.scale, matrix_from_scale_factors ⟨2, 2, 2⟩⟩ =
      .ok ⟨.scale, matrix_from_scale_factors ⟨2, 4, 6⟩⟩ := by
  have hmul : multiply_matrices (matrix_from_scale_factors ⟨1, 2, 3⟩)
      (matrix_from_scale_factors ⟨2, 2, 2⟩) =
        matrix_from_scale_factors (⟨2, 4, 6⟩ : Vec3 ℝ) := by
    norm_num [multiply_matrices, matrix_from_scale_factors, Mat4.mk.injEq]
  have hinst : isinstance ⟨.scale, matrix_from_scale_factors ⟨2, 2, 2⟩⟩
      TClass.scale := Or.inr rfl
  rw [PyTransformation.concatenated, if_pos hinst]
  show scaleInit _ = _
  rw [hmul]
  simp only [scaleInit,
    decompose_matrix_diag 2 4 6 (by norm_num) (by norm_num) (by norm_num)]
  rw [if_pos (allclose_self _)]

/-- C3 (amended): `concatenated` dispatches on `isinstance(other,
type(self))`: for two instances of the same constrained family it re-runs
that family's constructor — validation included, so it may raise — on the
matrix product and returns a family-typed result; the base
`Transformation` type is returned only when `other` is not an instance of
`type(self)`. -/
theorem concatenated_dispatch (self other : PyTransformation) :
    (self.cls = .scale → other.cls = .scale →
      PyTransformation.concatenated self other =
        scaleInit (multiply_matrices self.matrix other.matrix)) ∧
    (self.cls = .transformation →
      PyTransformation.concatenated self other =
        .ok ⟨.transformation, multiply_matrices self.matrix other.matrix⟩) ∧
    (self.cls = .scale → other.cls = .transformation →
      PyTransformation.concatenated self other =
        .ok ⟨.transformation, multiply_matrices self.matrix other.matrix⟩) := by
  refine ⟨?_, ?_, ?_⟩
  · intro hs ho
    rw [PyTransformation.concatenated, if_pos (by rw [hs]; exact Or.inr ho), hs]
    rfl
  · intro hs
    rw [PyTransformation.concatenated, if_pos (by rw [hs]; exact Or.inl rfl), hs]
    rfl
  · intro hs ho
    rw [PyTransformation.concatenated, if_neg]
    rw [hs, isinstance, ho]
    rintro (h | h) <;> cases h

/-- C3 witness: the dispatch statement applied to two concrete `Scale`
instances. -/
theorem concatenated_dispatch_witness :
    PyTransformation.concatenated ⟨.scale, matrix_from_scale_factors ⟨1, 2, 3⟩⟩
        ⟨.scale, matrix_from_scale_factors ⟨2, 2, 2⟩⟩ =
      scaleInit (multiply_matrices (matrix_from_scale_factors ⟨1, 2, 3⟩)
        (matrix_from_scale_factors ⟨2, 2, 2⟩)) :=
  (concatenated_dispatch ⟨.scale, matrix_from_scale_factors ⟨1, 2, 3⟩⟩
    ⟨.scale, matrix_from_scale_factors ⟨2, 2, 2⟩⟩).1 rfl rfl

/-- C8: `Scale.from_factors([2,2,2], frame)` for the frame with origin
`(2,5,0)` and world-aligned axes conjugates the canonical scale into the
frame's coordinate system: the frame origin is a fixed point, and the point
`(2,10,0)` — offset `(0,5,0)` from the origin — maps to `(2,15,0)`, its
offset doubled. -/
theorem scale_from_factors_frame_conjugates :
    ∃ S, scale_from_factors ⟨2, 2, 2⟩
        (some ⟨⟨2, 5, 0⟩, ⟨1, 0, 0⟩, ⟨0, 1, 0⟩⟩) = .ok S ∧
      S.cls = .scale ∧
      transform_point S.matrix ⟨2, 5, 0⟩ = ⟨2, 5, 0⟩ ∧
      transform_point S.matrix ⟨2, 10, 0⟩ = ⟨2, 15, 0⟩ := by
  refine ⟨⟨.scale, ⟨2, 0, 0, -2, 0, 2, 0, -5, 0, 0, 2, 0, 0, 0, 0, 1⟩⟩,
    ?_, rfl, ?_, ?_⟩
  · norm_num [scale_from_factors, matrix_from_change_of_basis, matrix_inverse,
      matrix_from_frame, worldXY, cross, matrix_determinant, det3,
      matrix_adjugate, mat_div, multiply_matrices, matrix_from_scale_factors,
      Mat4.mk.injEq]
  · norm_num [transform_point, Vec3.mk.injEq]
  · norm_num [transform_point, Vec3.mk.injEq]

theorem eulerCols_orthonormal (ax ay az : ℝ) :
    dot (eulerCol0 ax ay az) (eulerCol0 ax ay az) = 1 ∧
    dot (eulerCol1 ax ay az) (eulerCol1 ax ay az) = 1 ∧
    dot (eulerCol2 ax ay az) (eulerCol2 ax ay az) = 1 ∧
    dot (eulerCol0 ax ay az) (eulerCol1 ax ay az) = 0 ∧
    dot (eulerCol0 ax ay az) (eulerCol2 ax ay az) = 0 ∧
    dot (eulerCol1 ax ay az) (eulerCol2 ax ay az) = 0 ∧
    cross (eulerCol1 ax ay az) (eulerCol2 ax ay az) = eulerCol0 ax ay az := by
  have ha := Real.sin_sq_add_cos_sq ax
  have hb := Real.sin_sq_add_cos_sq ay
  have hc := Real.sin_sq_add_cos_sq az
  refine ⟨?_, ?_, ?_, ?_, ?_, ?_, ?_⟩
  · simp only [dot, eulerCol0]
    linear_combination (Real.cos ay ^ 2) * hc + hb
  · simp only [dot, eulerCol1]
    linear_combination (Real.sin ax ^ 2 * Real.sin ay ^ 2 + Real.cos ax ^ 2) * hc +
      Real.sin ax ^ 2 * hb + ha
  · simp only [dot, eulerCol2]
    linear_combination (Real.cos ax ^ 2 * Real.sin ay ^ 2 + Real.sin ax ^ 2) * hc +
      Real.cos ax ^ 2 * hb + ha
  · simp only [dot, eulerCol0, eulerCol1]
    linear_combination (Real.sin ax * Real.sin ay * Real.cos ay) * hc
  · simp only [dot, eulerCol0, eulerCol2]
    linear_combination (Real.cos ax * Real.sin ay * Real.cos ay) * hc
  · simp only [dot, eulerCol1, eulerCol2]
    linear_combination (Real.sin ax * Real.cos ax * (Real.sin ay ^ 2 - 1)) * hc +
      (Real.sin ax * Real.cos ax) * hb
  · simp only [cross, eulerCol0, eulerCol1, eulerCol2, Vec3.mk.injEq]
    refine ⟨?_, ?_, ?_⟩
    · linear_combination (Real.cos ay * Real.cos az) * ha
    · linear_combination (Real.cos ay * Real.sin az) * ha
    · linear_combination (-Real.sin ay * (Real.sin ax ^ 2 + Real.cos ax ^ 2)) * hc +
        (-Real.sin ay) * ha

theorem sin_cos_atan2_scaled (s c r : ℝ) (hr : r ≠ 0) (h : s ^ 2 + c ^ 2 = 1) :
    Real.sin (atan2 (s * r) (c * r)) = s * r / |r| ∧
    Real.cos (atan2 (s * r) (c * r)) = c * r / |r| := by
  have hz : (⟨c * r, s * r⟩ : ℂ) ≠ 0 := by
    intro h0
    rw [Complex.ext_iff] at h0
    simp only [Complex.zero_re, Complex.zero_im] at h0
    have hc0 : c = 0 := by
      rcases mul_eq_zero.mp h0.1 with h' | h'
      · exact h'
      · exact absurd h' hr
    have hs0 : s = 0 := by
      rcases mul_eq_zero.mp h0.2 with h' | h'
      · exact h'
      · exact absurd h' hr
    rw [hc0, hs0] at h
    norm_num at h
  have habs : Complex.abs ⟨c * r, s * r⟩ = |r| := by
    rw [Complex.abs_apply, Complex.normSq_mk]
    rw [show c * r * (c * r) + s * r * (s * r) = r ^ 2 by linear_combination r ^ 2 * h]
    exact Real.sqrt_sq_eq_abs r
  constructor
  · rw [atan2, Complex.sin_arg, habs]
  · rw [atan2, Complex.cos_arg hz, habs]

/-- The key Euler-angle round trip: for `cos ay ≠ 0`, rebuilding the rotation
matrix from the angles extracted by the engine's `atan2`/`asin` formulas
reproduces the original rotation matrix exactly. -/
theorem euler_extraction_roundtrip (ax ay az : ℝ) (hb : Real.cos ay ≠ 0) :
    matrix_from_euler_angles
        ⟨atan2 (Real.sin ax * Real.cos ay) (Real.cos ax * Real.cos ay),
         Real.arcsin (Real.sin ay),
         atan2 (Real.cos ay * Real.sin az) (Real.cos ay * Real.cos az)⟩ =
      matrix_from_euler_angles ⟨ax, ay, az⟩ := by
  have hA := sin_cos_atan2_scaled (Real.sin ax) (Real.cos ax) (Real.cos ay) hb
    (Real.sin_sq_add_cos_sq ax)
  have hCpre := sin_cos_atan2_scaled (Real.sin az) (Real.cos az) (Real.cos ay) hb
    (Real.sin_sq_add_cos_sq az)
  have hargy : Real.cos ay * Real.sin az = Real.sin az * Real.cos ay := mul_comm _ _
  have hargx : Real.cos ay * Real.cos az = Real.cos az * Real.cos ay := mul_comm _ _
  rw [hargy, hargx]
  have hsinb : Real.sin (Real.arcsin (Real.sin ay)) = Real.sin ay :=
    Real.sin_arcsin (Real.neg_one_le_sin ay) (Real.sin_le_one ay)
  have hcosb : Real.cos (Real.arcsin (Real.sin ay)) = |Real.cos ay| := by
    rw [Real.cos_arcsin,
      show 1 - Real.sin ay ^ 2 = Real.cos ay ^ 2 by
        linarith [Real.sin_sq_add_cos_sq ay],
      Real.sqrt_sq_eq_abs]
  rcases lt_or_gt_of_ne hb with hneg | hpos
  · have habs : |Real.cos ay| = -Real.cos ay := abs_of_neg hneg
    have hsa : Real.sin (atan2 (Real.sin ax * Real.cos ay)
        (Real.cos ax * Real.cos ay)) = -Real.sin ax := by
      rw [hA.1, habs, div_neg, mul_div_assoc, div_self hb, mul_one]
    have hca : Real.cos (atan2 (Real.sin ax * Real.cos ay)
        (Real.cos ax * Real.cos ay)) = -Real.cos ax := by
      rw [hA.2, habs, div_neg, mul_div_assoc, div_self hb, mul_one]
    have hsc : Real.sin (atan2 (Real.sin az * Real.cos ay)
        (Real.cos az * Real.cos ay)) = -Real.sin az := by
      rw [hCpre.1, habs, div_neg, mul_div_assoc, div_self hb, mul_one]
    have hcc : Real.cos (atan2 (Real.sin az * Real.cos ay)
        (Real.cos az * Real.cos ay)) = -Real.cos az := by
      rw [hCpre.2, habs, div_neg, mul_div_assoc, div_self hb, mul_one]
    simp only [matrix_from_euler_angles, hsa, hca, hsc, hcc, hsinb, hcosb, habs]
    congr 1 <;> ring
  · have habs : |Real.cos ay| = Real.cos ay := abs_of_pos hpos
    have hsa : Real.sin (atan2 (Real.sin ax * Real.cos ay)
        (Real.cos ax * Real.cos ay)) = Real.sin ax := by
      rw [hA.1, habs, mul_div_assoc, div_self hb, mul_one]
    have hca : Real.cos (atan2 (Real.sin ax * Real.cos ay)
        (Real.cos ax * Real.cos ay)) = Real.cos ax := by
      rw [hA.2, habs, mul_div_assoc, div_self hb, mul_one]
    have hsc : Real.sin (atan2 (Real.sin az * Real.cos ay)
        (Real.cos az * Real.cos ay)) = Real.sin az := by
      rw [hCpre.1, habs, mul_div_assoc, div_self hb, mul_one]
    have hcc : Real.cos (atan2 (Real.sin az * Real.cos ay)
        (Real.cos az * Real.cos ay)) = Real.cos az := by
      rw [hCpre.2, habs, mul_div_assoc, div_self hb, mul_one]
    simp only [matrix_from_euler_angles, hsa, hca, hsc, hcc, hsinb, hcosb, habs]

theorem multiply_identity_right (A : Mat4 α) :
    multiply_matrices A identity_matrix = A := by
  cases A
  simp only [multiply_matrices, identity_matrix, Mat4.mk.injEq]
  refine ⟨?_, ?_, ?_, ?_, ?_, ?_, ?_, ?_, ?_, ?_, ?_, ?_, ?_, ?_, ?_, ?_⟩ <;>
    ring

/-- C1: for `M` built as `Translation(t) * Rotation(angles, static XYZ) *
Scale(s)` with positive scale factors and nonzero cosine of the middle angle
(as at the claim's instance `t = [1,2,3]`,
`angles = [-2.142, 1.141, -0.142]`, `s = [0.123, 2, 0.5]`), `decomposed()`
succeeds and returns Scale, Shear, Rotation, Translation and Projection
components whose matrices equal the original three factors exactly — hence
elementwise within 1e-5 — with identity shear and projection parts, and
reconstructing `Translation · Rotation · Shear · Scale` from the returned
components reproduces `M` exactly. -/
theorem decomposed_roundtrip (t ang s : Vec3 ℝ)
    (hsx : 0 < s.x) (hsy : 0 < s.y) (hsz : 0 < s.z)
    (hcb : Real.cos ang.y ≠ 0) :
    ∃ Sc Sh R T P : Transformation ℝ,
      Transformation.decomposed ⟨multiply_matrices (multiply_matrices
        (matrix_from_translation t) (matrix_from_euler_angles ang))
        (matrix_from_scale_factors s)⟩ = .ok (Sc, Sh, R, T, P) ∧
      Sc.matrix = matrix_from_scale_factors s ∧
      Sh.matrix = identity_matrix ∧
      R.matrix = matrix_from_euler_angles ang ∧
      T.matrix = matrix_from_translation t ∧
      P.matrix = identity_matrix ∧
      multiply_matrices (multiply_matrices (multiply_matrices
          T.matrix R.matrix) Sh.matrix) Sc.matrix =
        multiply_matrices (multiply_matrices (matrix_from_translation t)
          (matrix_from_euler_angles ang)) (matrix_from_scale_factors s) := by
  obtain ⟨tx, ty, tz⟩ := t
  obtain ⟨ax, ay, az⟩ := ang
  obtain ⟨sx, sy, sz⟩ := s
  simp only at hsx hsy hsz hcb
  have hM : multiply_matrices (multiply_matrices
      (matrix_from_translation ⟨tx, ty, tz⟩)
      (matrix_from_euler_angles ⟨ax, ay, az⟩))
      (matrix_from_scale_factors ⟨sx, sy, sz⟩) =
      ⟨sx * (Real.cos ay * Real.cos az),
       sy * (Real.sin ax * Real.sin ay * Real.cos az - Real.cos ax * Real.sin az),
       sz * (Real.cos ax * Real.sin ay * Real.cos az + Real.sin ax * Real.sin az),
       tx,
       sx * (Real.cos ay * Real.sin az),
       sy * (Real.sin ax * Real.sin ay * Real.sin az + Real.cos ax * Real.cos az),
       sz * (Real.cos ax * Real.sin ay * Real.sin az - Real.sin ax * Real.cos az),
       ty,
       sx * -Real.sin ay,
       sy * (Real.sin ax * Real.cos ay),
       sz * (Real.cos ax * Real.cos ay),
       tz,
       0, 0, 0, 1⟩ := by
    simp only [multiply_matrices, matrix_from_translation,
      matrix_from_euler_angles, matrix_from_scale_factors, Mat4.mk.injEq]
    and_intros <;> ring
  obtain ⟨h00, h11, h22, h01, h02, h12, hcr⟩ := eulerCols_orthonormal ax ay az
  have hgs := gs_phase_orthonormal (eulerCol0 ax ay az) (eulerCol1 ax ay az)
    (eulerCol2 ax ay az) sx sy sz hsx hsy hsz h00 h11 h22 h01 h02 h12
  simp only [smul3, eulerCol0, eulerCol1, eulerCol2] at hgs
  simp only [eulerCol0, eulerCol1, eulerCol2] at hcr h00
  have hcosb : Real.cos (Real.arcsin (Real.sin ay)) = |Real.cos ay| := by
    rw [Real.cos_arcsin,
      show 1 - Real.sin ay ^ 2 = Real.cos ay ^ 2 by
        linarith [Real.sin_sq_add_cos_sq ay],
      Real.sqrt_sq_eq_abs]
  have hdec : decompose_matrix
      ⟨sx * (Real.cos ay * Real.cos az),
       sy * (Real.sin ax * Real.sin ay * Real.cos az - Real.cos ax * Real.sin az),
       sz * (Real.cos ax * Real.sin ay * Real.cos az + Real.sin ax * Real.sin az),
       tx,
       sx * (Real.cos ay * Real.sin az),
       sy * (Real.sin ax * Real.sin ay * Real.sin az + Real.cos ax * Real.cos az),
       sz * (Real.cos ax * Real.sin ay * Real.sin az - Real.sin ax * Real.cos az),
       ty,
       sx * -Real.sin ay,
       sy * (Real.sin ax * Real.cos ay),
       sz * (Real.cos ax * Real.cos ay),
       tz,
       0, 0, 0, 1⟩ =
      .ok ⟨⟨sx, sy, sz⟩, ⟨0, 0, 0⟩,
        ⟨atan2 (Real.sin ax * Real.cos ay) (Real.cos ax * Real.cos ay),
         Real.arcsin (Real.sin ay),
         atan2 (Real.cos ay * Real.sin az) (Real.cos ay * Real.cos az)⟩,
        ⟨tx, ty, tz⟩, ⟨0, 0, 0, 1⟩⟩ := by
    simp only [decompose_matrix, hgs, hcr, h00]
    simp only [if_neg (by norm_num : ¬(1 : ℝ) < 0), neg_neg, hcosb]
    rw [if_pos (abs_ne_zero.mpr hcb)]
    norm_num [eps]
  refine ⟨⟨matrix_from_scale_factors ⟨sx, sy, sz⟩⟩,
    ⟨matrix_from_shear_entries ⟨0, 0, 0⟩⟩,
    ⟨matrix_from_euler_angles
      ⟨atan2 (Real.sin ax * Real.cos ay) (Real.cos ax * Real.cos ay),
       Real.arcsin (Real.sin ay),
       atan2 (Real.cos ay * Real.sin az) (Real.cos ay * Real.cos az)⟩⟩,
    ⟨matrix_from_translation ⟨tx, ty, tz⟩⟩,
    ⟨matrix_from_perspective_entries ⟨0, 0, 0, 1⟩⟩, ?_, rfl, rfl,
    euler_extraction_roundtrip ax ay az hcb, rfl, rfl, ?_⟩
  · rw [Transformation.decomposed]
    simp only [hM, hdec]
  · rw [show matrix_from_shear_entries (⟨0, 0, 0⟩ : Vec3 ℝ) = identity_matrix
        from rfl,
      multiply_identity_right, euler_extraction_roundtrip ax ay az hcb]

/-- C1 witness: the round trip at the claim's instance
`t = [1, 2, 3]`, `angles = [-2.142, 1.141, -0.142]`,
`scale = [0.123, 2, 0.5]`. -/
theorem decomposed_roundtrip_witness :
    ∃ Sc Sh R T P : Transformation ℝ,
      Transformation.decomposed ⟨multiply_matrices (multiply_matrices
        (matrix_from_translation ⟨1, 2, 3⟩)
        (matrix_from_euler_angles ⟨-2.142, 1.141, -0.142⟩))
        (matrix_from_scale_factors ⟨0.123, 2, 0.5⟩)⟩ = .ok (Sc, Sh, R, T, P) ∧
      Sc.matrix = matrix_from_scale_factors ⟨0.123, 2, 0.5⟩ ∧
      Sh.matrix = identity_matrix ∧
      R.matrix = matrix_from_euler_angles ⟨-2.142, 1.141, -0.142⟩ ∧
      T.matrix = matrix_from_translation ⟨1, 2, 3⟩ ∧
      P.matrix = identity_matrix ∧
      multiply_matrices (multiply_matrices (multiply_matrices
          T.matrix R.matrix) Sh.matrix) Sc.matrix =
        multiply_matrices (multiply_matrices (matrix_from_translation ⟨1, 2, 3⟩)
          (matrix_from_euler_angles ⟨-2.142, 1.141, -0.142⟩))
          (matrix_from_scale_factors ⟨0.123, 2, 0.5⟩) :=
  decomposed_roundtrip ⟨1, 2, 3⟩ ⟨-2.142, 1.141, -0.142⟩ ⟨0.123, 2, 0.5⟩
    (by norm_num) (by norm_num) (by norm_num)
    (by
      show Real.cos (1.141 : ℝ) ≠ 0
      have hpi := Real.pi_gt_d6
      have h1 : (1.141 : ℝ) < Real.pi / 2 := by linarith
      have h2 : -(Real.pi / 2) < (1.141 : ℝ) := by linarith
      exact ne_of_gt (Real.cos_pos_of_mem_Ioo ⟨h2, h1⟩))

end Compas
